import Mathlib

/-!
# The auth store of etcd (`auth/store.go`)

A shallow embedding of `auth/store.go`: the three operations of `authStore`
(`AuthEnable`, `Recover`, `UserAdd`) and its constructor `NewAuthStore`, over a
model of the storage backend they call.

* Byte slices and Go strings are lists of byte values (`Bytes`).
* A backend is a mutable object the store holds a reference to.  The heap maps
  a backend reference to the current state of that backend, and the store is a
  record holding one reference, as `authStore` holds `be backend.Backend`.
* The backend primitives (`Lock`, `Unlock`, `UnsafeCreateBucket`, `UnsafePut`,
  `UnsafeRange`, `ForceCommit`) live in the package `storage/backend`, outside
  `auth/store.go`; they are modelled from the specification.
* `bcrypt.GenerateFromPassword` and `authpb.User.Marshal` are taken as
  parameters (`Env`).
* Logging calls (`plog`) have no effect on the state and are left out.
-/

namespace Auth

/-! ## Byte strings and sorted key/value lists -/

/-- A byte slice, or a Go string seen as its bytes. -/
abbrev Bytes := List Nat

/-- The order of `bytes.Compare(a, b) < 0`: lexicographic on the bytes. -/
def bytesLess : Bytes → Bytes → Bool
  | [], [] => false
  | [], _ :: _ => true
  | _ :: _, [] => false
  | a :: as, b :: bs =>
    if a < b then true else if b < a then false else bytesLess as bs

/-- Look a key up: the value of the first entry stored under exactly that key. -/
def kvGet {β : Type} : List (Bytes × β) → Bytes → Option β
  | [], _ => none
  | (k, v) :: rest, key => if k = key then some v else kvGet rest key

/-- Overwrite the first entry stored under the key. -/
def kvReplace {β : Type} (key : Bytes) (value : β) : List (Bytes × β) → List (Bytes × β)
  | [] => []
  | (k, v) :: rest =>
    if k = key then (key, value) :: rest else (k, v) :: kvReplace key value rest

/-- Insert a new entry at its place in key order: before the first entry with
a greater key. -/
def kvInsert {β : Type} (key : Bytes) (value : β) : List (Bytes × β) → List (Bytes × β)
  | [] => [(key, value)]
  | (k, v) :: rest =>
    if bytesLess key k then (key, value) :: (k, v) :: rest
    else (k, v) :: kvInsert key value rest

/-- Store a value under a key: an entry with the same key is overwritten,
otherwise the entry is inserted at its place in key order. -/
def kvPut {β : Type} (key : Bytes) (value : β) (l : List (Bytes × β)) : List (Bytes × β) :=
  if (kvGet l key).isSome then kvReplace key value l else kvInsert key value l

/-- The number of entries stored under a key. -/
def kvCount {β : Type} (l : List (Bytes × β)) (key : Bytes) : Nat :=
  (l.filter (fun e => decide (e.1 = key))).length

/-- The entries with `key ≤ k < endKey`, in list order, at most `limit` of them
when `limit` is positive. -/
def kvScan {β : Type} (l : List (Bytes × β)) (key endKey : Bytes) (limit : Int) :
    List (Bytes × β) :=
  let hits := l.filter (fun e => !bytesLess e.1 key && bytesLess e.1 endKey)
  if 0 < limit then hits.take limit.toNat else hits

/-! ## The backend (modelled from the specification) -/

/-- A bucket: its entries, key to value. -/
abbrev Bucket := List (Bytes × Bytes)

/-- The buckets of a backend, by name. -/
abbrev Buckets := List (Bytes × Bucket)

/-- The calls a backend receives, in the order it receives them. -/
inductive Event where
  | lock
  | unlock
  | createBucket (name : Bytes)
  | put (bucket key value : Bytes)
  | range (bucket key endKey : Bytes) (limit : Int)
  | forceCommit
  deriving DecidableEq, Repr

/-- Modelled from the spec: the storage backend (the package
`storage/backend`, outside `auth/store.go`).  "An external transactional key-value store
providing named buckets, a batched transaction object supporting lock/unlock,
unsafe put/range/create-bucket operations, and a force-commit operation that
guarantees durability of all writes since the last commit."

`pending` is what the batch transaction sees (committed data and the writes
since the last commit), `committed` is what is durable, `locked` is the state of
the transaction lock, and `trace` records the calls received (what a test
double of the backend would record). -/
structure Backend where
  pending : Buckets
  committed : Buckets
  locked : Bool
  trace : List Event
  deriving DecidableEq, Repr

namespace Backend

/-- The stored data of a backend, pending and durable. -/
def contents (b : Backend) : Buckets × Buckets := (b.pending, b.committed)

/-- Modelled from the spec: `tx.Lock()`.  The call returns holding the lock
("lock acquisition may block the calling thread until the lock is free"; the
wait itself is not modelled). -/
def Lock (b : Backend) : Backend :=
  { b with locked := true, trace := b.trace ++ [Event.lock] }

/-- Modelled from the spec: `tx.Unlock()` releases the lock. -/
def Unlock (b : Backend) : Backend :=
  { b with locked := false, trace := b.trace ++ [Event.unlock] }

/-- The buckets with an empty bucket of that name added, unless a bucket of
that name is there already. -/
def createIfAbsent (bs : Buckets) (name : Bytes) : Buckets :=
  if (kvGet bs name).isSome then bs else kvPut name [] bs

/-- Modelled from the spec: `tx.UnsafeCreateBucket(name)`, an idempotent
create: "creating an already-existing bucket is a no-op". -/
def UnsafeCreateBucket (b : Backend) (name : Bytes) : Backend :=
  { b with
    pending := createIfAbsent b.pending name,
    trace := b.trace ++ [Event.createBucket name] }

/-- Modelled from the spec: `tx.UnsafePut(bucket, key, value)`, a raw write of
the pending state.  The spec's invariant has the bucket exist before any write
touches it and calls a failing backend write fatal: a write to a bucket that
does not exist gives `none`, the process being aborted inside the backend. -/
def UnsafePut (b : Backend) (bucketName key value : Bytes) : Option Backend :=
  match kvGet b.pending bucketName with
  | none => none
  | some bucket =>
    some { b with
      pending := kvPut bucketName (kvPut key value bucket) b.pending,
      trace := b.trace ++ [Event.put bucketName key value] }

/-- Modelled from the spec: `tx.UnsafeRange(bucket, startKey, endKey, limit)
-> (keys, values)`, a raw read of the pending state.  With an empty `endKey` it
is the lookup of the single key `key`; otherwise it returns the entries with
`key ≤ k < endKey`, at most `limit` of them when `limit` is positive.  A read of
a bucket that does not exist gives `none` (see `UnsafePut`). -/
def UnsafeRange (b : Backend) (bucketName key endKey : Bytes) (limit : Int) :
    Option (Backend × List Bytes × List Bytes) :=
  match kvGet b.pending bucketName with
  | none => none
  | some bucket =>
    let hits : List (Bytes × Bytes) :=
      if endKey.length = 0 then
        match kvGet bucket key with
        | none => []
        | some v => [(key, v)]
      else kvScan bucket key endKey limit
    some ({ b with trace := b.trace ++ [Event.range bucketName key endKey limit] },
          hits.map Prod.fst, hits.map Prod.snd)

/-- Modelled from the spec: `b.ForceCommit()` "guarantees durability of all
writes since the last commit": the pending state becomes the durable one. -/
def ForceCommit (b : Backend) : Backend :=
  { b with committed := b.pending, trace := b.trace ++ [Event.forceCommit] }

/-- Modelled from the spec: the backend as a process finds it on reopening
after a crash: only the durable state is left, the lock is free. -/
def reopen (b : Backend) : Backend :=
  { pending := b.committed, committed := b.committed, locked := false, trace := [] }

/-- The bucket of that name exists (in the state the transaction sees). -/
def hasBucket (b : Backend) (name : Bytes) : Prop := (kvGet b.pending name).isSome = true

instance (b : Backend) (name : Bytes) : Decidable (b.hasBucket name) := by
  unfold hasBucket; infer_instance

/-- The value stored under `key` in bucket `bucketName` of a bucket map. -/
def lookup (bs : Buckets) (bucketName key : Bytes) : Option Bytes :=
  match kvGet bs bucketName with
  | none => none
  | some bucket => kvGet bucket key

/-- No two buckets have the same name, in the pending or in the durable state. -/
def WellFormed (b : Backend) : Prop :=
  (b.pending.map Prod.fst).Nodup ∧ (b.committed.map Prod.fst).Nodup

/-- The number of forced commits the backend has received. -/
def forceCommits (b : Backend) : Nat := b.trace.count Event.forceCommit

end Backend

/-- The backend with no bucket and no call received yet. -/
def emptyBackend : Backend := { pending := [], committed := [], locked := false, trace := [] }

/-! ## The environment: hashing and serialization -/

/-- The record `authpb.User`. -/
structure User where
  Name : Bytes
  Password : Bytes
  deriving DecidableEq, Repr

/-- The functions of other packages that `UserAdd` calls, as parameters:
`bcrypt.GenerateFromPassword(password, cost)` and `authpb.User.Marshal()`.
Each returns the bytes or an error of its own package (a code). -/
structure Env where
  GenerateFromPassword : Bytes → Int → Except Nat Bytes
  Marshal : User → Except Nat Bytes

/-- The constant `bcrypt.DefaultCost`. -/
def DefaultCost : Int := 10

/-- The errors `UserAdd` returns: `rpctypes.ErrUserAlreadyExist`, or the error
of the hashing or of the serialization, passed on as it is. -/
inductive Error where
  | ErrUserAlreadyExist
  | hashing (code : Nat)
  | marshal (code : Nat)
  deriving DecidableEq, Repr

/-! ## The store -/

/-- The variable `enableFlagKey`: the bytes of "authEnabled". -/
def enableFlagKey : Bytes := [97, 117, 116, 104, 69, 110, 97, 98, 108, 101, 100]

/-- The variable `authBucketName`: the bytes of "auth". -/
def authBucketName : Bytes := [97, 117, 116, 104]

/-- The variable `authUsersBucketName`: the bytes of "authUsers". -/
def authUsersBucketName : Bytes := [97, 117, 116, 104, 85, 115, 101, 114, 115]

/-- A reference to a backend (the value of a `backend.Backend` variable). -/
abbrev BackendRef := Nat

/-- The backends of the process, by reference. -/
abbrev Heap := BackendRef → Backend

/-- The struct `authStore`: a reference to a backend. -/
structure authStore where
  be : BackendRef
  deriving DecidableEq, Repr

/-- The state of the program: the store and the backends. -/
structure State where
  store : authStore
  heap : Heap

/-- The message `pb.AuthUserAddRequest`. -/
structure AuthUserAddRequest where
  Name : Bytes
  Password : Bytes
  deriving DecidableEq, Repr

/-- The message `pb.AuthUserAddResponse`, as the literal
`&pb.AuthUserAddResponse{}` builds it. -/
structure AuthUserAddResponse where
  deriving DecidableEq, Repr

/-- How a call ends: it returns a value, or the process is aborted inside the
backend (a read or write of a bucket that does not exist). -/
inductive Outcome (α : Type) where
  | returned (value : α)
  | fatal
  deriving DecidableEq, Repr

/-- The heap with the state of one backend replaced. -/
def Heap.set (h : Heap) (ref : BackendRef) (b : Backend) : Heap :=
  fun i => if i = ref then b else h i

/-- The backend the store refers to. -/
def State.backend (s : State) : Backend := s.heap s.store.be

/-- The state with the new state of the backend the store refers to. -/
def State.setBackend (s : State) (b : Backend) : State :=
  { s with heap := s.heap.set s.store.be b }

/-- The function `(*authStore).AuthEnable`. -/
def AuthEnable (s : State) : State × Outcome Unit :=
  let value : Bytes := [1]
  let b := s.backend
  let tx := b.Lock
  match tx.UnsafePut authBucketName enableFlagKey value with
  | none => (s.setBackend tx, Outcome.fatal)
  | some tx =>
    let b := tx.Unlock
    let b := b.ForceCommit
    (s.setBackend b, Outcome.returned ())

/-- The function `(*authStore).Recover`. -/
def Recover (s : State) (be : BackendRef) : State :=
  { s with store := { be := be } }

/-- The function `(*authStore).UserAdd`.  The deferred `tx.Unlock()` runs on
every return after `tx.Lock()`. -/
def UserAdd (env : Env) (s : State) (r : AuthUserAddRequest) :
    State × Outcome (Option AuthUserAddResponse × Option Error) :=
  match env.GenerateFromPassword r.Password DefaultCost with
  | Except.error err => (s, Outcome.returned (none, some (Error.hashing err)))
  | Except.ok hashed =>
    let tx := s.backend.Lock
    match tx.UnsafeRange authUsersBucketName r.Name [] 0 with
    | none => (s.setBackend tx, Outcome.fatal)
    | some (tx, _, vs) =>
      if vs.length ≠ 0 then
        (s.setBackend tx.Unlock, Outcome.returned (some {}, some Error.ErrUserAlreadyExist))
      else
        let newUser : User := { Name := r.Name, Password := hashed }
        match env.Marshal newUser with
        | Except.error merr =>
          (s.setBackend tx.Unlock, Outcome.returned (none, some (Error.marshal merr)))
        | Except.ok marshaledUser =>
          match tx.UnsafePut authUsersBucketName r.Name marshaledUser with
          | none => (s.setBackend tx, Outcome.fatal)
          | some tx => (s.setBackend tx.Unlock, Outcome.returned (some {}, none))

/-- The function `NewAuthStore`, called with the reference `be`. -/
def NewAuthStore (h : Heap) (be : BackendRef) : State :=
  let tx := (h be).Lock
  let tx := tx.UnsafeCreateBucket authBucketName
  let tx := tx.UnsafeCreateBucket authUsersBucketName
  let b := tx.Unlock
  let b := b.ForceCommit
  { store := { be := be }, heap := h.set be b }

/-! ## Sequences of calls -/

/-- Whether a call ended with the process aborted. -/
def Outcome.aborted {α : Type} : Outcome α → Bool
  | Outcome.fatal => true
  | Outcome.returned _ => false

/-- A call of the interface `AuthStore`.  A `userAdd` carries the environment
it runs in: the hashing is salted, so its result may differ from call to call. -/
inductive Call where
  | authEnable
  | recover (be : BackendRef)
  | userAdd (env : Env) (r : AuthUserAddRequest)

/-- One call: the state after it, and whether the process was aborted. -/
def step (s : State) : Call → State × Bool
  | Call.authEnable => ((AuthEnable s).1, (AuthEnable s).2.aborted)
  | Call.recover be => (Recover s be, false)
  | Call.userAdd env r => ((UserAdd env s r).1, (UserAdd env s r).2.aborted)

/-- A sequence of calls, one after the other; it ends when the process is
aborted. -/
def run : List Call → State → State
  | [], s => s
  | c :: cs, s => if (step s c).2 then (step s c).1 else run cs (step s c).1

/-- The call is a `Recover`. -/
def Call.isRecover : Call → Bool
  | Call.recover _ => true
  | _ => false

/-- Both buckets of the store exist in the backend. -/
def Backend.hasAuthBuckets (b : Backend) : Prop :=
  b.hasBucket authBucketName ∧ b.hasBucket authUsersBucketName

/-- Every `Recover` of the sequence is given a backend that holds both buckets
at the time of the call. -/
def recoversToAuthBuckets : List Call → State → Prop
  | [], _ => True
  | Call.recover be :: cs, s =>
    (s.heap be).hasAuthBuckets ∧ recoversToAuthBuckets cs (Recover s be)
  | c :: cs, s => recoversToAuthBuckets cs (step s c).1

/-! ## Lock discipline on a trace -/

/-- Follow a sequence of backend calls from the lock state `held`: `none` when
a call breaks the discipline (an unsafe primitive without the lock, a forced
commit or a second `Lock` with the lock held, an `Unlock` without the lock),
else the lock state at the end. -/
def lockDiscipline : Bool → List Event → Option Bool
  | held, [] => some held
  | held, Event.lock :: es => if held then none else lockDiscipline true es
  | held, Event.unlock :: es => if held then lockDiscipline false es else none
  | held, Event.forceCommit :: es => if held then none else lockDiscipline false es
  | held, Event.createBucket _ :: es => if held then lockDiscipline true es else none
  | held, Event.put _ _ _ :: es => if held then lockDiscipline true es else none
  | held, Event.range _ _ _ _ :: es => if held then lockDiscipline true es else none

/-! ## Examples -/

/-- An example serialization: the length of the name, the name, the password. -/
def exampleMarshal (u : User) : Bytes := u.Name.length :: (u.Name ++ u.Password)

/-- The decoding of `exampleMarshal`. -/
def exampleUnmarshal : Bytes → Option User
  | [] => none
  | n :: rest =>
    if n ≤ rest.length then some { Name := rest.take n, Password := rest.drop n } else none

/-- An example hashing: it refuses a password of more than 72 bytes. -/
def exampleHash (password : Bytes) (cost : Int) : Except Nat Bytes :=
  if 72 < password.length then Except.error 1
  else Except.ok (36 :: 50 :: 97 :: 36 :: cost.toNat :: 36 :: password.reverse)

/-- An example environment. -/
def exampleEnv : Env := { GenerateFromPassword := exampleHash, Marshal := fun u => Except.ok (exampleMarshal u) }

/-- An environment whose serialization fails. -/
def failingMarshalEnv : Env := { GenerateFromPassword := exampleHash, Marshal := fun _ => Except.error 7 }

/-- The heap in which every backend is empty. -/
def emptyHeap : Heap := fun _ => emptyBackend

/-- The store constructed on the empty backend 0. -/
def freshState : State := NewAuthStore emptyHeap 0

/-- The name "alice". -/
def alice : Bytes := [97, 108, 105, 99, 101]

/-- The request alice / "s3cret". -/
def aliceRequest : AuthUserAddRequest := { Name := alice, Password := [115, 51, 99, 114, 101, 116] }

/-- The request alice / "other". -/
def aliceOther : AuthUserAddRequest := { Name := alice, Password := [111, 116, 104, 101, 114] }

/-- The request alice with a password of 73 bytes. -/
def aliceLong : AuthUserAddRequest := { Name := alice, Password := List.replicate 73 97 }

/-- A fresh store to which the users "Alice", "alic" and "alicee" have been
added: another letter case, a proper prefix and an extension of "alice". -/
def crowdedState : State :=
  run [Call.userAdd exampleEnv { Name := [65, 108, 105, 99, 101], Password := [120] },
       Call.userAdd exampleEnv { Name := [97, 108, 105, 99], Password := [121] },
       Call.userAdd exampleEnv { Name := [97, 108, 105, 99, 101, 101], Password := [122] }]
    freshState

/-! ## Decoding the stored users -/

/-- The serialization used by a `userAdd` call is undone by `unmarshal`. -/
def Call.marshalsFor (unmarshal : Bytes → Option User) : Call → Prop
  | Call.userAdd env _ => ∀ u m, env.Marshal u = Except.ok m → unmarshal m = some u
  | _ => True

/-- Every entry of the bucket authUsers decodes to a user whose name is the
key of the entry. -/
def usersWellKeyed (unmarshal : Bytes → Option User) (bs : Buckets) : Prop :=
  ∀ bucket, kvGet bs authUsersBucketName = some bucket →
    ∀ k v, (k, v) ∈ bucket → ∃ u, unmarshal v = some u ∧ u.Name = k

end Auth

namespace Auth

/-! ## Key/value lists -/

theorem kvGet_kvReplace_same {β : Type} (key : Bytes) (value : β) (l : List (Bytes × β))
    (h : (kvGet l key).isSome = true) : kvGet (kvReplace key value l) key = some value := by
  induction l with
  | nil => simp [kvGet] at h
  | cons e rest ih =>
    obtain ⟨k, v⟩ := e
    by_cases h1 : k = key
    · simp [kvReplace, kvGet, h1]
    · simp only [kvGet, if_neg h1] at h
      simp [kvReplace, kvGet, h1, ih h]

theorem kvGet_kvInsert_same {β : Type} (key : Bytes) (value : β) (l : List (Bytes × β))
    (h : kvGet l key = none) : kvGet (kvInsert key value l) key = some value := by
  induction l with
  | nil => simp [kvInsert, kvGet]
  | cons e rest ih =>
    obtain ⟨k, v⟩ := e
    by_cases h1 : k = key
    · simp [kvGet, h1] at h
    · simp only [kvGet, if_neg h1] at h
      by_cases h2 : bytesLess key k = true
      · simp [kvInsert, kvGet, h2]
      · simp [kvInsert, kvGet, h1, h2, ih h]

theorem kvGet_kvReplace_ne {β : Type} (key key' : Bytes) (value : β) (l : List (Bytes × β))
    (hne : key ≠ key') : kvGet (kvReplace key value l) key' = kvGet l key' := by
  induction l with
  | nil => simp [kvReplace, kvGet]
  | cons e rest ih =>
    obtain ⟨k, v⟩ := e
    by_cases h1 : k = key
    · subst h1
      simp [kvReplace, kvGet, hne]
    · by_cases h3 : k = key'
      · subst h3
        simp [kvReplace, kvGet, h1]
      · simp [kvReplace, kvGet, h1, h3, ih]

theorem kvGet_kvInsert_ne {β : Type} (key key' : Bytes) (value : β) (l : List (Bytes × β))
    (hne : key ≠ key') : kvGet (kvInsert key value l) key' = kvGet l key' := by
  induction l with
  | nil => simp [kvInsert, kvGet, hne]
  | cons e rest ih =>
    obtain ⟨k, v⟩ := e
    by_cases h2 : bytesLess key k = true
    · simp [kvInsert, kvGet, h2, hne]
    · by_cases h3 : k = key'
      · subst h3
        simp [kvInsert, kvGet, h2]
      · simp [kvInsert, kvGet, h2, h3, ih]

theorem kvGet_kvPut_same {β : Type} (key : Bytes) (value : β) (l : List (Bytes × β)) :
    kvGet (kvPut key value l) key = some value := by
  unfold kvPut
  by_cases h : (kvGet l key).isSome = true
  · rw [if_pos h]
    exact kvGet_kvReplace_same key value l h
  · rw [if_neg h]
    apply kvGet_kvInsert_same
    rcases hg : kvGet l key with _ | b
    · rfl
    · rw [hg] at h
      exact absurd rfl h

theorem kvGet_kvPut_ne {β : Type} (key key' : Bytes) (value : β) (l : List (Bytes × β))
    (hne : key ≠ key') : kvGet (kvPut key value l) key' = kvGet l key' := by
  unfold kvPut
  by_cases h : (kvGet l key).isSome = true
  · rw [if_pos h]
    exact kvGet_kvReplace_ne key key' value l hne
  · rw [if_neg h]
    exact kvGet_kvInsert_ne key key' value l hne

theorem mem_kvReplace {β : Type} (key : Bytes) (value : β) (l : List (Bytes × β))
    (e : Bytes × β) (he : e ∈ kvReplace key value l) : e = (key, value) ∨ e ∈ l := by
  induction l with
  | nil => simp [kvReplace] at he
  | cons e' rest ih =>
    obtain ⟨k, v⟩ := e'
    by_cases h1 : k = key
    · simp only [kvReplace, if_pos h1, List.mem_cons] at he
      rcases he with he | he
      · exact Or.inl he
      · exact Or.inr (List.mem_cons_of_mem _ he)
    · simp only [kvReplace, if_neg h1, List.mem_cons] at he
      rcases he with he | he
      · exact Or.inr (he ▸ List.mem_cons_self _ _)
      · rcases ih he with h | h
        · exact Or.inl h
        · exact Or.inr (List.mem_cons_of_mem _ h)

theorem mem_kvInsert {β : Type} (key : Bytes) (value : β) (l : List (Bytes × β))
    (e : Bytes × β) (he : e ∈ kvInsert key value l) : e = (key, value) ∨ e ∈ l := by
  induction l with
  | nil => simpa [kvInsert] using he
  | cons e' rest ih =>
    obtain ⟨k, v⟩ := e'
    by_cases h2 : bytesLess key k = true
    · simp only [kvInsert, if_pos h2, List.mem_cons] at he
      rcases he with he | he | he
      · exact Or.inl he
      · exact Or.inr (he ▸ List.mem_cons_self _ _)
      · exact Or.inr (List.mem_cons_of_mem _ he)
    · simp only [kvInsert, if_neg h2, List.mem_cons] at he
      rcases he with he | he
      · exact Or.inr (he ▸ List.mem_cons_self _ _)
      · rcases ih he with h | h
        · exact Or.inl h
        · exact Or.inr (List.mem_cons_of_mem _ h)

theorem mem_kvPut {β : Type} (key : Bytes) (value : β) (l : List (Bytes × β))
    (e : Bytes × β) (he : e ∈ kvPut key value l) : e = (key, value) ∨ e ∈ l := by
  unfold kvPut at he
  by_cases h : (kvGet l key).isSome = true
  · rw [if_pos h] at he
    exact mem_kvReplace key value l e he
  · rw [if_neg h] at he
    exact mem_kvInsert key value l e he

theorem kvGet_eq_none_iff {β : Type} (l : List (Bytes × β)) (key : Bytes) :
    kvGet l key = none ↔ ∀ v, (key, v) ∉ l := by
  induction l with
  | nil => simp [kvGet]
  | cons e rest ih =>
    obtain ⟨k, v⟩ := e
    by_cases h1 : k = key
    · subst h1
      simp only [kvGet, if_true]
      constructor
      · intro h; cases h
      · intro h; exact absurd (List.mem_cons_self _ _) (h v)
    · simp only [kvGet, h1, if_false, ih]
      constructor
      · intro h w hw
        rcases List.mem_cons.1 hw with hw | hw
        · exact h1 (by cases hw; rfl)
        · exact h w hw
      · intro h w hw
        exact h w (List.mem_cons_of_mem _ hw)

theorem kvGet_isSome_iff {β : Type} (l : List (Bytes × β)) (key : Bytes) :
    (kvGet l key).isSome = true ↔ ∃ v, (key, v) ∈ l := by
  rcases h : kvGet l key with _ | v
  · have := (kvGet_eq_none_iff l key).1 h
    simp only [Option.isSome_none, Bool.false_eq_true, false_iff, not_exists]
    exact this
  · simp only [Option.isSome_some, true_iff]
    by_contra hc
    have : kvGet l key = none := (kvGet_eq_none_iff l key).2 (fun w hw => hc ⟨w, hw⟩)
    rw [h] at this
    cases this

theorem kvCount_cons {β : Type} (k : Bytes) (v : β) (rest : List (Bytes × β)) (key : Bytes) :
    kvCount ((k, v) :: rest) key = (if k = key then 1 else 0) + kvCount rest key := by
  by_cases h : k = key
  · simp [kvCount, List.filter_cons, h, Nat.add_comm]
  · simp [kvCount, List.filter_cons, h]

theorem kvCount_kvReplace {β : Type} (key key' : Bytes) (value : β) (l : List (Bytes × β)) :
    kvCount (kvReplace key value l) key' = kvCount l key' := by
  induction l with
  | nil => simp [kvReplace]
  | cons e rest ih =>
    obtain ⟨k, v⟩ := e
    by_cases h1 : k = key
    · subst h1
      simp [kvReplace, kvCount_cons]
    · simp [kvReplace, h1, kvCount_cons, ih]

theorem kvCount_kvInsert {β : Type} (key key' : Bytes) (value : β) (l : List (Bytes × β)) :
    kvCount (kvInsert key value l) key' = (if key = key' then 1 else 0) + kvCount l key' := by
  induction l with
  | nil => simp [kvInsert, kvCount_cons]
  | cons e rest ih =>
    obtain ⟨k, v⟩ := e
    by_cases h2 : bytesLess key k = true
    · simp [kvInsert, h2, kvCount_cons]
    · simp only [kvInsert, if_neg h2, kvCount_cons, ih]
      omega

theorem kvCount_kvPut_ne {β : Type} (key key' : Bytes) (value : β) (l : List (Bytes × β))
    (hne : key ≠ key') : kvCount (kvPut key value l) key' = kvCount l key' := by
  unfold kvPut
  by_cases h : (kvGet l key).isSome = true
  · rw [if_pos h]
    exact kvCount_kvReplace key key' value l
  · rw [if_neg h, kvCount_kvInsert, if_neg hne, Nat.zero_add]

theorem kvCount_eq_zero {β : Type} (l : List (Bytes × β)) (key : Bytes)
    (h : kvGet l key = none) : kvCount l key = 0 := by
  induction l with
  | nil => simp [kvCount]
  | cons e rest ih =>
    obtain ⟨k, v⟩ := e
    by_cases h1 : k = key
    · simp [kvGet, h1] at h
    · simp only [kvGet, h1, if_false] at h
      rw [kvCount_cons, if_neg h1, ih h]

theorem kvCount_kvPut_absent {β : Type} (key : Bytes) (value : β) (l : List (Bytes × β))
    (h : kvGet l key = none) : kvCount (kvPut key value l) key = 1 := by
  unfold kvPut
  rw [h]
  simp [kvCount_kvInsert, kvCount_eq_zero l key h]

theorem kvCount_of_nodup {β : Type} (l : List (Bytes × β)) (key : Bytes)
    (hnd : (l.map Prod.fst).Nodup) (h : (kvGet l key).isSome = true) : kvCount l key = 1 := by
  induction l with
  | nil => simp [kvGet] at h
  | cons e rest ih =>
    obtain ⟨k, v⟩ := e
    simp only [List.map_cons, List.nodup_cons] at hnd
    by_cases h1 : k = key
    · subst h1
      have hnone : kvGet rest k = none := by
        rw [kvGet_eq_none_iff]
        intro w hw
        exact hnd.1 (List.mem_map.2 ⟨(k, w), hw, rfl⟩)
      have h0 := kvCount_eq_zero rest k hnone
      unfold kvCount at h0
      simp [kvCount, List.filter_cons, h0]
    · have hrest : (kvGet rest key).isSome = true := by simpa [kvGet, h1] using h
      have := ih hnd.2 hrest
      unfold kvCount at this
      simp [kvCount, List.filter_cons, h1, this]

theorem kvReplace_keys {β : Type} (key : Bytes) (value : β) (l : List (Bytes × β)) :
    (kvReplace key value l).map Prod.fst = l.map Prod.fst := by
  induction l with
  | nil => rfl
  | cons e rest ih =>
    obtain ⟨k, v⟩ := e
    by_cases h1 : k = key
    · simp [kvReplace, h1]
    · simp [kvReplace, h1, ih]

theorem kvInsert_keys_perm {β : Type} (key : Bytes) (value : β) (l : List (Bytes × β)) :
    ((kvInsert key value l).map Prod.fst).Perm (key :: l.map Prod.fst) := by
  induction l with
  | nil => simp [kvInsert]
  | cons e rest ih =>
    obtain ⟨k, v⟩ := e
    by_cases h2 : bytesLess key k = true
    · simp [kvInsert, h2]
    · simp only [kvInsert, if_neg h2, List.map_cons]
      exact (List.Perm.cons k ih).trans (List.Perm.swap key k _)

theorem kvPut_nodup {β : Type} (key : Bytes) (value : β) (l : List (Bytes × β))
    (hnd : (l.map Prod.fst).Nodup) : ((kvPut key value l).map Prod.fst).Nodup := by
  unfold kvPut
  by_cases h : (kvGet l key).isSome = true
  · rw [if_pos h, kvReplace_keys]
    exact hnd
  · rw [if_neg h]
    have hnone : kvGet l key = none := by
      rcases hg : kvGet l key with _ | b
      · rfl
      · rw [hg] at h
        exact absurd rfl h
    have hnot : key ∉ l.map Prod.fst := by
      intro hmem
      obtain ⟨e, he, hk⟩ := List.mem_map.1 hmem
      obtain ⟨k, v⟩ := e
      cases hk
      exact (kvGet_eq_none_iff l k).1 hnone v he
    exact (kvInsert_keys_perm key value l).nodup_iff.2 (List.nodup_cons.2 ⟨hnot, hnd⟩)

/-! ## What each operation computes, case by case -/

theorem AuthEnable_of_bucket (s : State) (bucket : Bucket)
    (hb : kvGet s.backend.pending authBucketName = some bucket) :
    AuthEnable s =
      (s.setBackend
        { pending := kvPut authBucketName (kvPut enableFlagKey [1] bucket) s.backend.pending,
          committed := kvPut authBucketName (kvPut enableFlagKey [1] bucket) s.backend.pending,
          locked := false,
          trace := s.backend.trace ++
            [Event.lock, Event.put authBucketName enableFlagKey [1], Event.unlock,
             Event.forceCommit] },
       Outcome.returned ()) := by
  simp [AuthEnable, Backend.Lock, Backend.UnsafePut, Backend.Unlock, Backend.ForceCommit, hb]

theorem AuthEnable_no_bucket (s : State)
    (hb : kvGet s.backend.pending authBucketName = none) :
    AuthEnable s = (s.setBackend s.backend.Lock, Outcome.fatal) := by
  simp [AuthEnable, Backend.Lock, Backend.UnsafePut, hb]

theorem UserAdd_hash_error (env : Env) (s : State) (r : AuthUserAddRequest) (err : Nat)
    (hh : env.GenerateFromPassword r.Password DefaultCost = Except.error err) :
    UserAdd env s r = (s, Outcome.returned (none, some (Error.hashing err))) := by
  simp [UserAdd, hh]

theorem UserAdd_no_bucket (env : Env) (s : State) (r : AuthUserAddRequest) (hashed : Bytes)
    (hh : env.GenerateFromPassword r.Password DefaultCost = Except.ok hashed)
    (hb : kvGet s.backend.pending authUsersBucketName = none) :
    UserAdd env s r = (s.setBackend s.backend.Lock, Outcome.fatal) := by
  simp [UserAdd, hh, Backend.Lock, Backend.UnsafeRange, hb]

theorem UserAdd_exists (env : Env) (s : State) (r : AuthUserAddRequest) (hashed : Bytes)
    (bucket : Bucket) (v : Bytes)
    (hh : env.GenerateFromPassword r.Password DefaultCost = Except.ok hashed)
    (hb : kvGet s.backend.pending authUsersBucketName = some bucket)
    (hn : kvGet bucket r.Name = some v) :
    UserAdd env s r =
      (s.setBackend
        { pending := s.backend.pending,
          committed := s.backend.committed,
          locked := false,
          trace := s.backend.trace ++
            [Event.lock, Event.range authUsersBucketName r.Name [] 0, Event.unlock] },
       Outcome.returned (some {}, some Error.ErrUserAlreadyExist)) := by
  simp [UserAdd, hh, Backend.Lock, Backend.UnsafeRange, Backend.Unlock, hb, hn]

theorem UserAdd_marshal_error (env : Env) (s : State) (r : AuthUserAddRequest)
    (hashed : Bytes) (bucket : Bucket) (merr : Nat)
    (hh : env.GenerateFromPassword r.Password DefaultCost = Except.ok hashed)
    (hb : kvGet s.backend.pending authUsersBucketName = some bucket)
    (hn : kvGet bucket r.Name = none)
    (hm : env.Marshal { Name := r.Name, Password := hashed } = Except.error merr) :
    UserAdd env s r =
      (s.setBackend
        { pending := s.backend.pending,
          committed := s.backend.committed,
          locked := false,
          trace := s.backend.trace ++
            [Event.lock, Event.range authUsersBucketName r.Name [] 0, Event.unlock] },
       Outcome.returned (none, some (Error.marshal merr))) := by
  simp [UserAdd, hh, Backend.Lock, Backend.UnsafeRange, Backend.Unlock, hb, hn, hm]

theorem UserAdd_added (env : Env) (s : State) (r : AuthUserAddRequest)
    (hashed : Bytes) (bucket : Bucket) (marshaledUser : Bytes)
    (hh : env.GenerateFromPassword r.Password DefaultCost = Except.ok hashed)
    (hb : kvGet s.backend.pending authUsersBucketName = some bucket)
    (hn : kvGet bucket r.Name = none)
    (hm : env.Marshal { Name := r.Name, Password := hashed } = Except.ok marshaledUser) :
    UserAdd env s r =
      (s.setBackend
        { pending := kvPut authUsersBucketName (kvPut r.Name marshaledUser bucket)
            s.backend.pending,
          committed := s.backend.committed,
          locked := false,
          trace := s.backend.trace ++
            [Event.lock, Event.range authUsersBucketName r.Name [] 0,
             Event.put authUsersBucketName r.Name marshaledUser, Event.unlock] },
       Outcome.returned (some {}, none)) := by
  simp [UserAdd, hh, Backend.Lock, Backend.UnsafeRange, Backend.UnsafePut, Backend.Unlock,
    hb, hn, hm]

theorem setBackend_backend (s : State) (b : Backend) : (s.setBackend b).backend = b := by
  simp [State.setBackend, State.backend, Heap.set]

theorem setBackend_store (s : State) (b : Backend) : (s.setBackend b).store = s.store := rfl

theorem setBackend_heap_ne (s : State) (b : Backend) (i : BackendRef) (hi : i ≠ s.store.be) :
    (s.setBackend b).heap i = s.heap i := by
  simp [State.setBackend, Heap.set, hi]

theorem NewAuthStore_backend (h : Heap) (be : BackendRef) :
    (NewAuthStore h be).backend =
      { pending := Backend.createIfAbsent
          (Backend.createIfAbsent (h be).pending authBucketName) authUsersBucketName,
        committed := Backend.createIfAbsent
          (Backend.createIfAbsent (h be).pending authBucketName) authUsersBucketName,
        locked := false,
        trace := (h be).trace ++
          [Event.lock, Event.createBucket authBucketName,
           Event.createBucket authUsersBucketName, Event.unlock, Event.forceCommit] } := by
  simp [NewAuthStore, State.backend, Heap.set, Backend.Lock, Backend.UnsafeCreateBucket,
    Backend.Unlock, Backend.ForceCommit]

/-! ## UserAdd: adding, rejecting, failing -/

/-- C1 (as the code has it): for every state in which the bucket authUsers
exists and holds no entry under the non-empty name of the request, and the
hashing and the serialization of the request succeed, `UserAdd` returns the
response with no error, and in the resulting state a second `UserAdd` with the
same name and any password whose hashing succeeds returns
`ErrUserAlreadyExist`. -/
theorem UserAdd_twice_already_exists (env env' : Env) (s : State) (r : AuthUserAddRequest)
    (password' hashed hashed' marshaledUser : Bytes) (bucket : Bucket)
    (_hname : r.Name ≠ [])
    (hb : kvGet s.backend.pending authUsersBucketName = some bucket)
    (hn : kvGet bucket r.Name = none)
    (hh : env.GenerateFromPassword r.Password DefaultCost = Except.ok hashed)
    (hm : env.Marshal { Name := r.Name, Password := hashed } = Except.ok marshaledUser)
    (hh' : env'.GenerateFromPassword password' DefaultCost = Except.ok hashed') :
    (UserAdd env s r).2 = Outcome.returned (some {}, none) ∧
    (UserAdd env' (UserAdd env s r).1 { Name := r.Name, Password := password' }).2 =
      Outcome.returned (some {}, some Error.ErrUserAlreadyExist) := by
  rw [UserAdd_added env s r hashed bucket marshaledUser hh hb hn hm]
  refine ⟨rfl, ?_⟩
  rw [UserAdd_exists env' _ { Name := r.Name, Password := password' } hashed'
    (kvPut r.Name marshaledUser bucket) marshaledUser hh']
  · rw [setBackend_backend]
    exact kvGet_kvPut_same _ _ _
  · exact kvGet_kvPut_same _ _ _

/-- Witness of C1: "alice"/"s3cret", then "alice"/"other", on a fresh store. -/
theorem UserAdd_twice_already_exists_witness :
    (UserAdd exampleEnv freshState aliceRequest).2 = Outcome.returned (some {}, none) ∧
    (UserAdd exampleEnv (UserAdd exampleEnv freshState aliceRequest).1
        { Name := aliceRequest.Name, Password := aliceOther.Password }).2 =
      Outcome.returned (some {}, some Error.ErrUserAlreadyExist) :=
  UserAdd_twice_already_exists exampleEnv exampleEnv freshState aliceRequest
    aliceOther.Password
    [36, 50, 97, 36, 10, 36, 116, 101, 114, 99, 51, 115]
    [36, 50, 97, 36, 10, 36, 114, 101, 104, 116, 111]
    [5, 97, 108, 105, 99, 101, 36, 50, 97, 36, 10, 36, 116, 101, 114, 99, 51, 115]
    [] (by decide) (by decide) (by decide) rfl rfl rfl

/-- C1 as stated fails: after "alice" has been added, a second `UserAdd` for
"alice" with a password the hashing refuses returns the hashing error, not
`ErrUserAlreadyExist`: the password is hashed before the name is looked up. -/
theorem UserAdd_twice_hash_error_first :
    aliceRequest.Name ≠ [] ∧
    kvGet freshState.backend.pending authUsersBucketName = some [] ∧
    exampleEnv.GenerateFromPassword aliceRequest.Password DefaultCost =
      Except.ok [36, 50, 97, 36, 10, 36, 116, 101, 114, 99, 51, 115] ∧
    (UserAdd exampleEnv freshState aliceRequest).2 = Outcome.returned (some {}, none) ∧
    aliceLong.Name = aliceRequest.Name ∧
    (UserAdd exampleEnv (UserAdd exampleEnv freshState aliceRequest).1 aliceLong).2 =
      Outcome.returned (none, some (Error.hashing 1)) ∧
    (UserAdd exampleEnv (UserAdd exampleEnv freshState aliceRequest).1 aliceLong).2 ≠
      Outcome.returned (some {}, some Error.ErrUserAlreadyExist) :=
  ⟨by decide, by decide, rfl, by decide, rfl, by decide, by decide⟩

/-- C2: for every state and every request whose password hashes successfully,
`UserAdd` returns `ErrUserAlreadyExist` if and only if the bucket authUsers
holds an entry whose key is exactly the requested name, whatever other keys it
holds; the response then is the empty response, and the one read `UserAdd`
issues (when the bucket exists) is `UnsafeRange(authUsers, name, nil, 0)`, right
after taking the lock. -/
theorem UserAdd_already_exists_iff (env : Env) (s : State) (r : AuthUserAddRequest)
    (hashed : Bytes)
    (hh : env.GenerateFromPassword r.Password DefaultCost = Except.ok hashed) :
    ((∃ resp, (UserAdd env s r).2 = Outcome.returned (resp, some Error.ErrUserAlreadyExist)) ↔
      ∃ bucket, kvGet s.backend.pending authUsersBucketName = some bucket ∧
        ∃ v, (r.Name, v) ∈ bucket) ∧
    (∀ resp, (UserAdd env s r).2 = Outcome.returned (resp, some Error.ErrUserAlreadyExist) →
      resp = some {}) ∧
    (∀ bucket, kvGet s.backend.pending authUsersBucketName = some bucket →
      ∃ evs, (UserAdd env s r).1.backend.trace =
        s.backend.trace ++
          Event.lock :: Event.range authUsersBucketName r.Name [] 0 :: evs) := by
  rcases hb : kvGet s.backend.pending authUsersBucketName with _ | bucket
  · rw [UserAdd_no_bucket env s r hashed hh hb]
    simp
  · rcases hn : kvGet bucket r.Name with _ | v
    · have hnot : ∀ v, (r.Name, v) ∉ bucket := (kvGet_eq_none_iff bucket r.Name).1 hn
      rcases hm : env.Marshal { Name := r.Name, Password := hashed } with merr | m
      · rw [UserAdd_marshal_error env s r hashed bucket merr hh hb hn hm]
        simp [setBackend_backend, hnot]
      · rw [UserAdd_added env s r hashed bucket m hh hb hn hm]
        simp [setBackend_backend, hnot]
    · have hex : ∃ v, (r.Name, v) ∈ bucket :=
        (kvGet_isSome_iff bucket r.Name).1 (by rw [hn]; rfl)
      rw [UserAdd_exists env s r hashed bucket v hh hb hn]
      simp [setBackend_backend, hex]

/-- Witness of C2: "alice" is rejected once "alice" has been added, and is not
rejected by a bucket that holds "Alice", "alic" and "alicee". -/
theorem UserAdd_already_exists_iff_witness :
    ((∃ resp, (UserAdd exampleEnv (UserAdd exampleEnv freshState aliceRequest).1 aliceOther).2 =
      Outcome.returned (resp, some Error.ErrUserAlreadyExist)) ↔
      ∃ bucket, kvGet (UserAdd exampleEnv freshState aliceRequest).1.backend.pending
          authUsersBucketName = some bucket ∧
        ∃ v, (aliceOther.Name, v) ∈ bucket) ∧
    ((∃ resp, (UserAdd exampleEnv crowdedState aliceRequest).2 =
      Outcome.returned (resp, some Error.ErrUserAlreadyExist)) ↔
      ∃ bucket, kvGet crowdedState.backend.pending authUsersBucketName = some bucket ∧
        ∃ v, (aliceRequest.Name, v) ∈ bucket) ∧
    (Option.map List.length (kvGet crowdedState.backend.pending authUsersBucketName) =
      some 3) ∧
    (UserAdd exampleEnv crowdedState aliceRequest).2 = Outcome.returned (some {}, none) :=
  ⟨(UserAdd_already_exists_iff exampleEnv (UserAdd exampleEnv freshState aliceRequest).1
      aliceOther [36, 50, 97, 36, 10, 36, 114, 101, 104, 116, 111] rfl).1,
   (UserAdd_already_exists_iff exampleEnv crowdedState aliceRequest
      [36, 50, 97, 36, 10, 36, 116, 101, 114, 99, 51, 115] rfl).1,
   by decide, by decide⟩

/-- C3: when `UserAdd` returns an error, the contents of every backend, pending
and durable, are what they were before the call, and the store refers to the
same backend; on a hashing failure the whole state is unchanged: no backend has
received any call (no lock, no read, no write). -/
theorem UserAdd_error_no_write (env : Env) (s : State) (r : AuthUserAddRequest) :
    (∀ resp e, (UserAdd env s r).2 = Outcome.returned (resp, some e) →
      (∀ i, ((UserAdd env s r).1.heap i).contents = (s.heap i).contents) ∧
      (UserAdd env s r).1.store = s.store) ∧
    (∀ err, env.GenerateFromPassword r.Password DefaultCost = Except.error err →
      (UserAdd env s r).1 = s ∧
      (UserAdd env s r).2 = Outcome.returned (none, some (Error.hashing err))) := by
  constructor
  · intro resp e hret
    rcases hh : env.GenerateFromPassword r.Password DefaultCost with err | hashed
    · rw [UserAdd_hash_error env s r err hh]
      exact ⟨fun _ => rfl, rfl⟩
    · rcases hb : kvGet s.backend.pending authUsersBucketName with _ | bucket
      · rw [UserAdd_no_bucket env s r hashed hh hb] at hret
        cases hret
      · rcases hn : kvGet bucket r.Name with _ | v
        · rcases hm : env.Marshal { Name := r.Name, Password := hashed } with merr | m
          · rw [UserAdd_marshal_error env s r hashed bucket merr hh hb hn hm]
            refine ⟨fun i => ?_, rfl⟩
            by_cases hi : i = s.store.be
            · subst hi
              simp [State.setBackend, Heap.set, Backend.contents, State.backend]
            · simp [State.setBackend, Heap.set, hi]
          · rw [UserAdd_added env s r hashed bucket m hh hb hn hm] at hret
            cases hret
        · rw [UserAdd_exists env s r hashed bucket v hh hb hn]
          refine ⟨fun i => ?_, rfl⟩
          by_cases hi : i = s.store.be
          · subst hi
            simp [State.setBackend, Heap.set, Backend.contents, State.backend]
          · simp [State.setBackend, Heap.set, hi]
  · intro err hh
    rw [UserAdd_hash_error env s r err hh]
    exact ⟨rfl, rfl⟩

/-- Witness of C3: the rejected second "alice", a failing serialization, and
the refused long password. -/
theorem UserAdd_error_no_write_witness :
    ((∀ i, ((UserAdd exampleEnv (UserAdd exampleEnv freshState aliceRequest).1 aliceOther).1.heap
        i).contents = ((UserAdd exampleEnv freshState aliceRequest).1.heap i).contents) ∧
      (UserAdd exampleEnv (UserAdd exampleEnv freshState aliceRequest).1 aliceOther).1.store =
        (UserAdd exampleEnv freshState aliceRequest).1.store) ∧
    ((∀ i, ((UserAdd failingMarshalEnv freshState aliceRequest).1.heap i).contents =
        (freshState.heap i).contents) ∧
      (UserAdd failingMarshalEnv freshState aliceRequest).1.store = freshState.store) ∧
    ((UserAdd exampleEnv freshState aliceLong).1 = freshState ∧
      (UserAdd exampleEnv freshState aliceLong).2 =
        Outcome.returned (none, some (Error.hashing 1))) :=
  ⟨(UserAdd_error_no_write exampleEnv (UserAdd exampleEnv freshState aliceRequest).1
      aliceOther).1 (some {}) Error.ErrUserAlreadyExist (by decide),
   (UserAdd_error_no_write failingMarshalEnv freshState aliceRequest).1 none
      (Error.marshal 7) (by decide),
   (UserAdd_error_no_write exampleEnv freshState aliceLong).2 1 rfl⟩

/-! ## AuthEnable is durable, UserAdd is not forced -/

/-- C4: in every state in which the bucket auth exists, `AuthEnable` returns,
and afterwards the durable contents of the backend hold exactly the one byte
0x01 under key "authEnabled" of bucket "auth", whatever was there before; a
backend reopened from the durable state reads the flag as enabled. -/
theorem AuthEnable_durable (s : State) (hb : s.backend.hasBucket authBucketName) :
    (AuthEnable s).2 = Outcome.returned () ∧
    Backend.lookup (AuthEnable s).1.backend.committed authBucketName enableFlagKey =
      some [1] ∧
    Option.map (fun x => x.2)
        ((AuthEnable s).1.backend.reopen.UnsafeRange authBucketName enableFlagKey [] 0) =
      some ([enableFlagKey], [[1]]) := by
  unfold Backend.hasBucket at hb
  rcases hk : kvGet s.backend.pending authBucketName with _ | bucket
  · rw [hk] at hb
    cases hb
  · rw [AuthEnable_of_bucket s bucket hk]
    simp [setBackend_backend, Backend.lookup, Backend.reopen, Backend.UnsafeRange,
      kvGet_kvPut_same]

/-- Witness of C4: `AuthEnable` on a fresh store. -/
theorem AuthEnable_durable_witness :
    (AuthEnable freshState).2 = Outcome.returned () ∧
    Backend.lookup (AuthEnable freshState).1.backend.committed authBucketName enableFlagKey =
      some [1] ∧
    Option.map (fun x => x.2)
        ((AuthEnable freshState).1.backend.reopen.UnsafeRange authBucketName enableFlagKey
          [] 0) =
      some ([enableFlagKey], [[1]]) :=
  AuthEnable_durable freshState (by decide)

/-- C5: `UserAdd` never calls `ForceCommit`, on any path: in every backend the
durable contents and the number of forced commits are the same after the call
as before, and the calls the store's backend received during `UserAdd` include
no forced commit.  When `UserAdd` returns success the serialized user is in the
pending state under its name, and the durable state is still the one from
before the call. -/
theorem UserAdd_no_force_commit (env : Env) (s : State) (r : AuthUserAddRequest) :
    (∀ i, ((UserAdd env s r).1.heap i).committed = (s.heap i).committed ∧
      ((UserAdd env s r).1.heap i).forceCommits = (s.heap i).forceCommits) ∧
    (∃ evs, (UserAdd env s r).1.backend.trace = s.backend.trace ++ evs ∧
      Event.forceCommit ∉ evs) ∧
    (∀ resp, (UserAdd env s r).2 = Outcome.returned (resp, none) →
      ∃ hashed marshaledUser,
        env.GenerateFromPassword r.Password DefaultCost = Except.ok hashed ∧
        env.Marshal { Name := r.Name, Password := hashed } = Except.ok marshaledUser ∧
        Backend.lookup (UserAdd env s r).1.backend.pending authUsersBucketName r.Name =
          some marshaledUser ∧
        (UserAdd env s r).1.backend.committed = s.backend.committed) := by
  have key : ∀ (b : Backend), b.committed = s.backend.committed →
      b.forceCommits = s.backend.forceCommits →
      ∀ i, ((s.setBackend b).heap i).committed = (s.heap i).committed ∧
        ((s.setBackend b).heap i).forceCommits = (s.heap i).forceCommits := by
    intro b h1 h2 i
    by_cases hi : i = s.store.be
    · subst hi
      simpa [State.setBackend, Heap.set, State.backend] using And.intro h1 h2
    · simp [State.setBackend, Heap.set, hi]
  rcases hh : env.GenerateFromPassword r.Password DefaultCost with err | hashed
  · rw [UserAdd_hash_error env s r err hh]
    exact ⟨fun _ => ⟨rfl, rfl⟩, ⟨[], by simp, by simp⟩, by intro resp h; cases h⟩
  · rcases hb : kvGet s.backend.pending authUsersBucketName with _ | bucket
    · rw [UserAdd_no_bucket env s r hashed hh hb]
      refine ⟨key _ rfl ?_, ⟨[Event.lock], ?_, by simp⟩, by intro resp h; cases h⟩
      · simp [Backend.forceCommits, Backend.Lock, List.count_append]
      · simp [setBackend_backend, Backend.Lock]
    · rcases hn : kvGet bucket r.Name with _ | v
      · rcases hm : env.Marshal { Name := r.Name, Password := hashed } with merr | m
        · rw [UserAdd_marshal_error env s r hashed bucket merr hh hb hn hm]
          refine ⟨key _ rfl ?_,
            ⟨[Event.lock, Event.range authUsersBucketName r.Name [] 0, Event.unlock], ?_, ?_⟩,
            by intro resp h; cases h⟩
          · simp [Backend.forceCommits, List.count_append]
          · rw [setBackend_backend]
          · simp
        · rw [UserAdd_added env s r hashed bucket m hh hb hn hm]
          refine ⟨key _ rfl ?_,
            ⟨[Event.lock, Event.range authUsersBucketName r.Name [] 0,
              Event.put authUsersBucketName r.Name m, Event.unlock], ?_, ?_⟩, ?_⟩
          · simp [Backend.forceCommits, List.count_append]
          · rw [setBackend_backend]
          · simp
          · intro resp _
            refine ⟨hashed, m, rfl, hm, ?_, ?_⟩
            · simp [setBackend_backend, Backend.lookup, kvGet_kvPut_same]
            · rw [setBackend_backend]
      · rw [UserAdd_exists env s r hashed bucket v hh hb hn]
        refine ⟨key _ rfl ?_,
          ⟨[Event.lock, Event.range authUsersBucketName r.Name [] 0, Event.unlock], ?_, ?_⟩,
          by intro resp h; cases h⟩
        · simp [Backend.forceCommits, List.count_append]
        · rw [setBackend_backend]
        · simp

/-- Witness of C5: after "alice" has been added to a fresh store the entry is
pending and the durable state is the one from before. -/
theorem UserAdd_no_force_commit_witness :
    ∃ hashed marshaledUser,
      exampleEnv.GenerateFromPassword aliceRequest.Password DefaultCost = Except.ok hashed ∧
      exampleEnv.Marshal { Name := aliceRequest.Name, Password := hashed } =
        Except.ok marshaledUser ∧
      Backend.lookup (UserAdd exampleEnv freshState aliceRequest).1.backend.pending
        authUsersBucketName aliceRequest.Name = some marshaledUser ∧
      (UserAdd exampleEnv freshState aliceRequest).1.backend.committed =
        freshState.backend.committed :=
  (UserAdd_no_force_commit exampleEnv freshState aliceRequest).2.2 (some {}) (by decide)

/-! ## NewAuthStore -/

theorem auth_ne_authUsers : authBucketName ≠ authUsersBucketName := by decide

theorem createIfAbsent_get_self (bs : Buckets) (n : Bytes) :
    (kvGet (Backend.createIfAbsent bs n) n).isSome = true := by
  unfold Backend.createIfAbsent
  by_cases h : (kvGet bs n).isSome = true
  · simp [h]
  · simp [h, kvGet_kvPut_same]

theorem createIfAbsent_get_ne (bs : Buckets) (n n' : Bytes) (hne : n ≠ n') :
    kvGet (Backend.createIfAbsent bs n) n' = kvGet bs n' := by
  unfold Backend.createIfAbsent
  by_cases h : (kvGet bs n).isSome = true
  · simp [h]
  · simp [h, kvGet_kvPut_ne n n' _ bs hne]

theorem createIfAbsent_of_present (bs : Buckets) (n : Bytes)
    (h : (kvGet bs n).isSome = true) : Backend.createIfAbsent bs n = bs := by
  simp [Backend.createIfAbsent, h]

theorem createIfAbsent_lookup (bs : Buckets) (n n' k : Bytes) :
    Backend.lookup (Backend.createIfAbsent bs n) n' k = Backend.lookup bs n' k := by
  by_cases hne : n = n'
  · subst hne
    rcases hg : kvGet bs n with _ | bucket
    · have : kvGet (Backend.createIfAbsent bs n) n = some [] := by
        simp [Backend.createIfAbsent, hg, kvGet_kvPut_same]
      simp [Backend.lookup, this, hg, kvGet]
    · rw [createIfAbsent_of_present bs n (by rw [hg]; rfl)]
  · simp [Backend.lookup, createIfAbsent_get_ne bs n n' hne]

theorem createIfAbsent_count_self (bs : Buckets) (n : Bytes)
    (h : (kvGet bs n).isSome = true → kvCount bs n = 1) :
    kvCount (Backend.createIfAbsent bs n) n = 1 := by
  unfold Backend.createIfAbsent
  by_cases hp : (kvGet bs n).isSome = true
  · simp [hp, h hp]
  · have hnone : kvGet bs n = none := by
      rcases hg : kvGet bs n with _ | b
      · rfl
      · rw [hg] at hp
        exact absurd rfl hp
    simp [hnone, kvCount_kvPut_absent n _ bs hnone]

theorem createIfAbsent_count_ne (bs : Buckets) (n n' : Bytes) (hne : n ≠ n') :
    kvCount (Backend.createIfAbsent bs n) n' = kvCount bs n' := by
  unfold Backend.createIfAbsent
  by_cases hp : (kvGet bs n).isSome = true
  · simp [hp]
  · simp [hp, kvCount_kvPut_ne n n' _ bs hne]

theorem NewAuthStore_pending_twice (bs : Buckets) :
    Backend.createIfAbsent
        (Backend.createIfAbsent
          (Backend.createIfAbsent (Backend.createIfAbsent bs authBucketName)
            authUsersBucketName)
          authBucketName)
        authUsersBucketName =
      Backend.createIfAbsent (Backend.createIfAbsent bs authBucketName)
        authUsersBucketName := by
  have h1 : (kvGet (Backend.createIfAbsent (Backend.createIfAbsent bs authBucketName)
      authUsersBucketName) authBucketName).isSome = true := by
    rw [createIfAbsent_get_ne _ _ _ (Ne.symm auth_ne_authUsers)]
    exact createIfAbsent_get_self _ _
  rw [createIfAbsent_of_present _ authBucketName h1]
  exact createIfAbsent_of_present _ _ (createIfAbsent_get_self _ _)

theorem createIfAbsent_nodup (bs : Buckets) (n : Bytes) (hnd : (bs.map Prod.fst).Nodup) :
    ((Backend.createIfAbsent bs n).map Prod.fst).Nodup := by
  unfold Backend.createIfAbsent
  by_cases hp : (kvGet bs n).isSome = true
  · rw [if_pos hp]
    exact hnd
  · rw [if_neg hp]
    exact kvPut_nodup n [] bs hnd

/-- C6: `NewAuthStore` is idempotent on the backend.  Constructing the store a
second time on the same backend leaves the contents of the backend, pending and
durable, as the first construction left them, touches no other backend, and
gives the same store; the buckets "auth" and "authUsers" then exist and the
durable state equals the pending one; every key/value the backend held before
is still there, pending and durable; and on a backend in which no two buckets
share a name there is exactly one bucket "auth" and one bucket "authUsers",
pending and durable, and still no two buckets share a name. -/
theorem NewAuthStore_idempotent (h : Heap) (be : BackendRef) :
    (NewAuthStore (NewAuthStore h be).heap be).backend.contents =
      (NewAuthStore h be).backend.contents ∧
    (NewAuthStore (NewAuthStore h be).heap be).store = (NewAuthStore h be).store ∧
    (∀ i, i ≠ be → (NewAuthStore (NewAuthStore h be).heap be).heap i = h i) ∧
    (NewAuthStore (NewAuthStore h be).heap be).backend.hasAuthBuckets ∧
    (NewAuthStore (NewAuthStore h be).heap be).backend.committed =
      (NewAuthStore (NewAuthStore h be).heap be).backend.pending ∧
    (∀ n k v, Backend.lookup (h be).pending n k = some v →
      Backend.lookup (NewAuthStore (NewAuthStore h be).heap be).backend.pending n k = some v ∧
      Backend.lookup (NewAuthStore (NewAuthStore h be).heap be).backend.committed n k =
        some v) ∧
    ((h be).WellFormed →
      kvCount (NewAuthStore (NewAuthStore h be).heap be).backend.pending authBucketName = 1 ∧
      kvCount (NewAuthStore (NewAuthStore h be).heap be).backend.pending
        authUsersBucketName = 1 ∧
      kvCount (NewAuthStore (NewAuthStore h be).heap be).backend.committed
        authBucketName = 1 ∧
      kvCount (NewAuthStore (NewAuthStore h be).heap be).backend.committed
        authUsersBucketName = 1 ∧
      (NewAuthStore (NewAuthStore h be).heap be).backend.WellFormed) := by
  have hheap : (NewAuthStore h be).heap be = (NewAuthStore h be).backend := rfl
  have hp2 : (NewAuthStore (NewAuthStore h be).heap be).backend.pending =
      Backend.createIfAbsent (Backend.createIfAbsent (h be).pending authBucketName)
        authUsersBucketName := by
    rw [NewAuthStore_backend, hheap, NewAuthStore_backend]
    exact NewAuthStore_pending_twice _
  have hc2 : (NewAuthStore (NewAuthStore h be).heap be).backend.committed =
      Backend.createIfAbsent (Backend.createIfAbsent (h be).pending authBucketName)
        authUsersBucketName := by
    rw [NewAuthStore_backend, hheap, NewAuthStore_backend]
    exact NewAuthStore_pending_twice _
  have hauth : (kvGet (Backend.createIfAbsent
      (Backend.createIfAbsent (h be).pending authBucketName) authUsersBucketName)
      authBucketName).isSome = true := by
    rw [createIfAbsent_get_ne _ _ _ (Ne.symm auth_ne_authUsers)]
    exact createIfAbsent_get_self _ _
  refine ⟨?_, rfl, ?_, ?_, ?_, ?_, ?_⟩
  · unfold Backend.contents
    rw [hp2, hc2, NewAuthStore_backend]
  · intro i hi
    simp [NewAuthStore, Heap.set, hi]
  · unfold Backend.hasAuthBuckets Backend.hasBucket
    rw [hp2]
    exact ⟨hauth, createIfAbsent_get_self _ _⟩
  · rw [hp2, hc2]
  · intro n k v hv
    rw [hp2, hc2, createIfAbsent_lookup, createIfAbsent_lookup]
    exact ⟨hv, hv⟩
  · intro hwf
    unfold Backend.WellFormed
    rw [hp2, hc2]
    have hN := createIfAbsent_nodup _ authUsersBucketName
      (createIfAbsent_nodup _ authBucketName hwf.1)
    have hA : kvCount (Backend.createIfAbsent (Backend.createIfAbsent (h be).pending
        authBucketName) authUsersBucketName) authBucketName = 1 := by
      rw [createIfAbsent_count_ne _ _ _ (Ne.symm auth_ne_authUsers)]
      exact createIfAbsent_count_self _ _ (kvCount_of_nodup _ _ hwf.1)
    have hU : kvCount (Backend.createIfAbsent (Backend.createIfAbsent (h be).pending
        authBucketName) authUsersBucketName) authUsersBucketName = 1 := by
      apply createIfAbsent_count_self
      intro hpres
      rw [createIfAbsent_count_ne _ _ _ auth_ne_authUsers]
      rw [createIfAbsent_get_ne _ _ _ auth_ne_authUsers] at hpres
      exact kvCount_of_nodup _ _ hwf.1 hpres
    exact ⟨hA, hU, hA, hU, hN, hN⟩

/-- Witness of C6: constructing the store twice on the empty backend, and on a
backend that holds the flag and a user. -/
theorem NewAuthStore_idempotent_witness :
    (Backend.lookup
        (NewAuthStore (NewAuthStore (AuthEnable (UserAdd exampleEnv freshState
          aliceRequest).1).1.heap 0).heap 0).backend.committed
        authBucketName enableFlagKey = some [1]) ∧
    (kvCount (NewAuthStore (NewAuthStore emptyHeap 0).heap 0).backend.pending
        authBucketName = 1 ∧
      kvCount (NewAuthStore (NewAuthStore emptyHeap 0).heap 0).backend.pending
        authUsersBucketName = 1 ∧
      kvCount (NewAuthStore (NewAuthStore emptyHeap 0).heap 0).backend.committed
        authBucketName = 1 ∧
      kvCount (NewAuthStore (NewAuthStore emptyHeap 0).heap 0).backend.committed
        authUsersBucketName = 1 ∧
      (NewAuthStore (NewAuthStore emptyHeap 0).heap 0).backend.WellFormed) :=
  ⟨((NewAuthStore_idempotent (AuthEnable (UserAdd exampleEnv freshState
        aliceRequest).1).1.heap 0).2.2.2.2.2.1 authBucketName enableFlagKey [1]
      (by decide)).2,
   (NewAuthStore_idempotent emptyHeap 0).2.2.2.2.2.2 ⟨List.nodup_nil, List.nodup_nil⟩⟩

/-! ## Frames and invariants over sequences of calls -/

theorem AuthEnable_frame (s : State) :
    (AuthEnable s).1.store = s.store ∧
    ∀ i, i ≠ s.store.be → (AuthEnable s).1.heap i = s.heap i := by
  rcases hk : kvGet s.backend.pending authBucketName with _ | bucket
  · rw [AuthEnable_no_bucket s hk]
    exact ⟨rfl, fun i hi => setBackend_heap_ne s _ i hi⟩
  · rw [AuthEnable_of_bucket s bucket hk]
    exact ⟨rfl, fun i hi => setBackend_heap_ne s _ i hi⟩

theorem UserAdd_frame (env : Env) (s : State) (r : AuthUserAddRequest) :
    (UserAdd env s r).1.store = s.store ∧
    ∀ i, i ≠ s.store.be → (UserAdd env s r).1.heap i = s.heap i := by
  rcases hh : env.GenerateFromPassword r.Password DefaultCost with err | hashed
  · rw [UserAdd_hash_error env s r err hh]
    exact ⟨rfl, fun _ _ => rfl⟩
  · rcases hb : kvGet s.backend.pending authUsersBucketName with _ | bucket
    · rw [UserAdd_no_bucket env s r hashed hh hb]
      exact ⟨rfl, fun i hi => setBackend_heap_ne s _ i hi⟩
    · rcases hn : kvGet bucket r.Name with _ | v
      · rcases hm : env.Marshal { Name := r.Name, Password := hashed } with merr | m
        · rw [UserAdd_marshal_error env s r hashed bucket merr hh hb hn hm]
          exact ⟨rfl, fun i hi => setBackend_heap_ne s _ i hi⟩
        · rw [UserAdd_added env s r hashed bucket m hh hb hn hm]
          exact ⟨rfl, fun i hi => setBackend_heap_ne s _ i hi⟩
      · rw [UserAdd_exists env s r hashed bucket v hh hb hn]
        exact ⟨rfl, fun i hi => setBackend_heap_ne s _ i hi⟩

theorem setBackend_wellFormed (s : State) (b : Backend) (hb : b.WellFormed)
    (hs : ∀ i, (s.heap i).WellFormed) : ∀ i, ((s.setBackend b).heap i).WellFormed := by
  intro i
  by_cases hi : i = s.store.be
  · simpa [State.setBackend, Heap.set, hi] using hb
  · simpa [State.setBackend, Heap.set, hi] using hs i

theorem AuthEnable_keeps_wellFormed (s : State) (hs : ∀ i, (s.heap i).WellFormed) :
    ∀ i, ((AuthEnable s).1.heap i).WellFormed := by
  have hcur : s.backend.WellFormed := hs s.store.be
  rcases hk : kvGet s.backend.pending authBucketName with _ | bucket
  · rw [AuthEnable_no_bucket s hk]
    exact setBackend_wellFormed s _ hcur hs
  · rw [AuthEnable_of_bucket s bucket hk]
    exact setBackend_wellFormed s _
      ⟨kvPut_nodup _ _ _ hcur.1, kvPut_nodup _ _ _ hcur.1⟩ hs

theorem UserAdd_keeps_wellFormed (env : Env) (s : State) (r : AuthUserAddRequest)
    (hs : ∀ i, (s.heap i).WellFormed) : ∀ i, ((UserAdd env s r).1.heap i).WellFormed := by
  have hcur : s.backend.WellFormed := hs s.store.be
  rcases hh : env.GenerateFromPassword r.Password DefaultCost with err | hashed
  · rw [UserAdd_hash_error env s r err hh]
    exact hs
  · rcases hb : kvGet s.backend.pending authUsersBucketName with _ | bucket
    · rw [UserAdd_no_bucket env s r hashed hh hb]
      exact setBackend_wellFormed s _ hcur hs
    · rcases hn : kvGet bucket r.Name with _ | v
      · rcases hm : env.Marshal { Name := r.Name, Password := hashed } with merr | m
        · rw [UserAdd_marshal_error env s r hashed bucket merr hh hb hn hm]
          exact setBackend_wellFormed s _ hcur hs
        · rw [UserAdd_added env s r hashed bucket m hh hb hn hm]
          exact setBackend_wellFormed s _ ⟨kvPut_nodup _ _ _ hcur.1, hcur.2⟩ hs
      · rw [UserAdd_exists env s r hashed bucket v hh hb hn]
        exact setBackend_wellFormed s _ hcur hs

theorem run_keeps_wellFormed (cs : List Call) :
    ∀ s : State, (∀ i, (s.heap i).WellFormed) → ∀ i, ((run cs s).heap i).WellFormed := by
  induction cs with
  | nil => intro s hs; exact hs
  | cons c cs ih =>
    intro s hs
    have hstep : ∀ i, ((step s c).1.heap i).WellFormed := by
      cases c with
      | authEnable => exact AuthEnable_keeps_wellFormed s hs
      | recover be => exact hs
      | userAdd env r => exact UserAdd_keeps_wellFormed env s r hs
    by_cases hab : (step s c).2 = true
    · have hrun : run (c :: cs) s = (step s c).1 := by simp [run, hab]
      rw [hrun]
      exact hstep
    · have hrun : run (c :: cs) s = run cs (step s c).1 := by simp [run, hab]
      rw [hrun]
      exact ih _ hstep

theorem AuthEnable_keeps_buckets (s : State) (hb : s.backend.hasAuthBuckets) :
    (AuthEnable s).1.backend.hasAuthBuckets ∧ (AuthEnable s).2 = Outcome.returned () := by
  obtain ⟨h1, h2⟩ := hb
  unfold Backend.hasBucket at h1 h2
  rcases hk : kvGet s.backend.pending authBucketName with _ | bucket
  · rw [hk] at h1
    cases h1
  · rw [AuthEnable_of_bucket s bucket hk]
    refine ⟨⟨?_, ?_⟩, rfl⟩
    · simp [Backend.hasBucket, setBackend_backend, kvGet_kvPut_same]
    · simp only [Backend.hasBucket, setBackend_backend]
      rw [kvGet_kvPut_ne _ _ _ _ auth_ne_authUsers]
      exact h2

theorem UserAdd_keeps_buckets (env : Env) (s : State) (r : AuthUserAddRequest)
    (hb : s.backend.hasAuthBuckets) :
    (UserAdd env s r).1.backend.hasAuthBuckets ∧ (UserAdd env s r).2.aborted = false := by
  have hb0 := hb
  obtain ⟨h1, h2⟩ := hb
  unfold Backend.hasBucket at h1 h2
  have same : ∀ (l : Bool) (t : List Event),
      (s.setBackend
        { pending := s.backend.pending,
          committed := s.backend.committed,
          locked := l,
          trace := t }).backend.hasAuthBuckets := by
    intro l t
    rw [setBackend_backend]
    exact ⟨h1, h2⟩
  rcases hh : env.GenerateFromPassword r.Password DefaultCost with err | hashed
  · rw [UserAdd_hash_error env s r err hh]
    exact ⟨hb0, rfl⟩
  · rcases hk : kvGet s.backend.pending authUsersBucketName with _ | bucket
    · rw [hk] at h2
      cases h2
    · rcases hn : kvGet bucket r.Name with _ | v
      · rcases hm : env.Marshal { Name := r.Name, Password := hashed } with merr | m
        · rw [UserAdd_marshal_error env s r hashed bucket merr hh hk hn hm]
          exact ⟨same _ _, rfl⟩
        · rw [UserAdd_added env s r hashed bucket m hh hk hn hm]
          refine ⟨⟨?_, ?_⟩, rfl⟩
          · simp only [Backend.hasBucket, setBackend_backend]
            rw [kvGet_kvPut_ne _ _ _ _ (Ne.symm auth_ne_authUsers)]
            exact h1
          · simp [Backend.hasBucket, setBackend_backend, kvGet_kvPut_same]
      · rw [UserAdd_exists env s r hashed bucket v hh hk hn]
        exact ⟨same _ _, rfl⟩

theorem run_keeps_buckets (cs : List Call) :
    ∀ s : State, s.backend.hasAuthBuckets → recoversToAuthBuckets cs s →
      (run cs s).backend.hasAuthBuckets := by
  induction cs with
  | nil => intro s hb _; exact hb
  | cons c cs ih =>
    intro s hb hrec
    cases c with
    | authEnable =>
      have hk := AuthEnable_keeps_buckets s hb
      have hrun : run (Call.authEnable :: cs) s = run cs (AuthEnable s).1 := by
        simp [run, step, hk.2, Outcome.aborted]
      rw [hrun]
      exact ih _ hk.1 hrec
    | recover be =>
      have hrun : run (Call.recover be :: cs) s = run cs (Recover s be) := by
        simp [run, step]
      rw [hrun]
      exact ih _ hrec.1 hrec.2
    | userAdd env r =>
      have hk := UserAdd_keeps_buckets env s r hb
      have hrun : run (Call.userAdd env r :: cs) s = run cs (UserAdd env s r).1 := by
        simp [run, step, hk.2]
      rw [hrun]
      exact ih _ hk.1 hrec

theorem NewAuthStore_hasAuthBuckets (h : Heap) (be : BackendRef) :
    (NewAuthStore h be).backend.hasAuthBuckets := by
  rw [NewAuthStore_backend]
  refine ⟨?_, ?_⟩
  · show (kvGet _ authBucketName).isSome = true
    rw [createIfAbsent_get_ne _ _ _ (Ne.symm auth_ne_authUsers)]
    exact createIfAbsent_get_self _ _
  · exact createIfAbsent_get_self _ _

/-- C7 (as the code has it): in every state reached from `NewAuthStore` by a
sequence of `AuthEnable`, `UserAdd` and `Recover` calls in which every
`Recover` is given a backend that holds both buckets, the backend the store
refers to holds the buckets "auth" and "authUsers"; hence an `AuthEnable` or a
`UserAdd` called in such a state never reads or writes a bucket that does not
exist (neither ends in the backend's abort). -/
theorem buckets_exist_invariant (h : Heap) (be : BackendRef) (cs : List Call)
    (hrec : recoversToAuthBuckets cs (NewAuthStore h be)) :
    (run cs (NewAuthStore h be)).backend.hasAuthBuckets ∧
    (AuthEnable (run cs (NewAuthStore h be))).2 = Outcome.returned () ∧
    ∀ env r, (UserAdd env (run cs (NewAuthStore h be)) r).2.aborted = false := by
  have hinv := run_keeps_buckets cs _ (NewAuthStore_hasAuthBuckets h be) hrec
  exact ⟨hinv, (AuthEnable_keeps_buckets _ hinv).2,
    fun env r => (UserAdd_keeps_buckets env _ r hinv).2⟩

/-- Witness of C7: add "alice", recover to a second store's backend, enable. -/
theorem buckets_exist_invariant_witness :
    (run [Call.userAdd exampleEnv aliceRequest, Call.recover 1, Call.authEnable]
      (NewAuthStore (NewAuthStore emptyHeap 1).heap 0)).backend.hasAuthBuckets ∧
    (AuthEnable (run [Call.userAdd exampleEnv aliceRequest, Call.recover 1, Call.authEnable]
      (NewAuthStore (NewAuthStore emptyHeap 1).heap 0))).2 = Outcome.returned () ∧
    ∀ env r, (UserAdd env
      (run [Call.userAdd exampleEnv aliceRequest, Call.recover 1, Call.authEnable]
        (NewAuthStore (NewAuthStore emptyHeap 1).heap 0)) r).2.aborted = false :=
  buckets_exist_invariant (NewAuthStore emptyHeap 1).heap 0
    [Call.userAdd exampleEnv aliceRequest, Call.recover 1, Call.authEnable]
    ⟨⟨by decide, by decide⟩, trivial⟩

/-- C7 as stated fails: after `NewAuthStore` on backend 0, a `Recover` to the
empty backend 1 leaves the store on a backend with neither bucket, and the next
`AuthEnable` writes to a bucket that does not exist. -/
theorem Recover_breaks_buckets_invariant :
    ¬ (run [Call.recover 1] (NewAuthStore emptyHeap 0)).backend.hasAuthBuckets ∧
    ¬ (run [Call.recover 1] (NewAuthStore emptyHeap 0)).backend.hasBucket authBucketName ∧
    ¬ (run [Call.recover 1] (NewAuthStore emptyHeap 0)).backend.hasBucket
        authUsersBucketName ∧
    (AuthEnable (run [Call.recover 1] (NewAuthStore emptyHeap 0))).2 = Outcome.fatal ∧
    (UserAdd exampleEnv (run [Call.recover 1] (NewAuthStore emptyHeap 0)) aliceRequest).2 =
      Outcome.fatal := by
  refine ⟨fun h => absurd h.1 (by decide), by decide, by decide, by decide, by decide⟩

/-! ## Recover -/

theorem step_frame (s : State) (c : Call) (hc : c.isRecover = false) :
    (step s c).1.store = s.store ∧
    ∀ i, i ≠ s.store.be → (step s c).1.heap i = s.heap i := by
  cases c with
  | authEnable => exact AuthEnable_frame s
  | recover be => cases hc
  | userAdd env r => exact UserAdd_frame env s r

theorem run_frame (cs : List Call) :
    ∀ s : State, (∀ c ∈ cs, c.isRecover = false) →
      (run cs s).store = s.store ∧ ∀ i, i ≠ s.store.be → (run cs s).heap i = s.heap i := by
  induction cs with
  | nil => intro s _; exact ⟨rfl, fun _ _ => rfl⟩
  | cons c cs ih =>
    intro s hcs
    have hc := step_frame s c (hcs c (List.mem_cons_self _ _))
    by_cases hab : (step s c).2 = true
    · have hrun : run (c :: cs) s = (step s c).1 := by simp [run, hab]
      rw [hrun]
      exact hc
    · have hrun : run (c :: cs) s = run cs (step s c).1 := by simp [run, hab]
      rw [hrun]
      have hrest := ih (step s c).1 (fun c' hc' => hcs c' (List.mem_cons_of_mem _ hc'))
      refine ⟨hrest.1.trans hc.1, fun i hi => ?_⟩
      rw [hrest.2 i (by rw [hc.1]; exact hi)]
      exact hc.2 i hi

/-- C8 (as the code has it): `Recover` only replaces the backend reference of
the store: afterwards the store refers to the given backend and every backend
is as it was before the call (no read, write, bucket creation or commit).
Every later `AuthEnable` or `UserAdd` leaves the store on the given backend and
leaves every other backend untouched, the previous one included when it is not
the backend given to `Recover`; and a later `AuthEnable`, or `UserAdd` whose
hashing succeeds, takes the lock of the given backend. -/
theorem Recover_swaps_reference (s : State) (be : BackendRef) :
    (Recover s be).store.be = be ∧
    (Recover s be).heap = s.heap ∧
    (∀ cs : List Call, (∀ c ∈ cs, c.isRecover = false) →
      (run cs (Recover s be)).store.be = be ∧
      (∀ i, i ≠ be → (run cs (Recover s be)).heap i = s.heap i) ∧
      (s.store.be ≠ be → (run cs (Recover s be)).heap s.store.be = s.heap s.store.be)) ∧
    (∃ evs, ((AuthEnable (Recover s be)).1.heap be).trace =
      (s.heap be).trace ++ Event.lock :: evs) ∧
    (∀ env r hashed, env.GenerateFromPassword r.Password DefaultCost = Except.ok hashed →
      ∃ evs, ((UserAdd env (Recover s be) r).1.heap be).trace =
        (s.heap be).trace ++ Event.lock :: evs) := by
  refine ⟨rfl, rfl, ?_, ?_, ?_⟩
  · intro cs hcs
    have hf := run_frame cs (Recover s be) hcs
    refine ⟨by rw [hf.1]; rfl, fun i hi => hf.2 i hi, fun hne => hf.2 _ hne⟩
  · have hb : ∀ b, ((Recover s be).setBackend b).heap be = b := by
      intro b
      simp [State.setBackend, Heap.set, Recover]
    have hcur : (Recover s be).backend = s.heap be := rfl
    rcases hk : kvGet (Recover s be).backend.pending authBucketName with _ | bucket
    · rw [AuthEnable_no_bucket _ hk, hb, hcur]
      exact ⟨[], rfl⟩
    · rw [AuthEnable_of_bucket _ bucket hk, hb, hcur]
      exact ⟨_, rfl⟩
  · intro env r hashed hh
    have hb : ∀ b, ((Recover s be).setBackend b).heap be = b := by
      intro b
      simp [State.setBackend, Heap.set, Recover]
    have hcur : (Recover s be).backend = s.heap be := rfl
    rcases hk : kvGet (Recover s be).backend.pending authUsersBucketName with _ | bucket
    · rw [UserAdd_no_bucket env _ r hashed hh hk, hb, hcur]
      exact ⟨[], rfl⟩
    · rcases hn : kvGet bucket r.Name with _ | v
      · rcases hm : env.Marshal { Name := r.Name, Password := hashed } with merr | m
        · rw [UserAdd_marshal_error env _ r hashed bucket merr hh hk hn hm, hb, hcur]
          exact ⟨_, rfl⟩
        · rw [UserAdd_added env _ r hashed bucket m hh hk hn hm, hb, hcur]
          exact ⟨_, rfl⟩
      · rw [UserAdd_exists env _ r hashed bucket v hh hk hn, hb, hcur]
        exact ⟨_, rfl⟩

/-- Witness of C8: a store on backend 0 recovers to backend 1; "alice" is then
added and authentication enabled, and backend 0 is as it was. -/
theorem Recover_swaps_reference_witness :
    (run [Call.userAdd exampleEnv aliceRequest, Call.authEnable]
        (Recover (NewAuthStore (NewAuthStore emptyHeap 1).heap 0) 1)).heap
      (NewAuthStore (NewAuthStore emptyHeap 1).heap 0).store.be =
    (NewAuthStore (NewAuthStore emptyHeap 1).heap 0).heap
      (NewAuthStore (NewAuthStore emptyHeap 1).heap 0).store.be :=
  ((Recover_swaps_reference (NewAuthStore (NewAuthStore emptyHeap 1).heap 0) 1).2.2.1
    [Call.userAdd exampleEnv aliceRequest, Call.authEnable]
    (by intro c hc; simp at hc; rcases hc with rfl | rfl <;> rfl)).2.2 (by decide)

/-- C8 as stated fails when `Recover` is given the backend the store already
refers to: the previous backend is then the one every later call writes, and an
`AuthEnable` after the `Recover` changes it. -/
theorem Recover_same_backend_is_written :
    (Recover freshState freshState.store.be).store.be = freshState.store.be ∧
    (AuthEnable (Recover freshState freshState.store.be)).1.heap freshState.store.be ≠
      freshState.heap freshState.store.be ∧
    ((AuthEnable (Recover freshState freshState.store.be)).1.heap
        freshState.store.be).committed ≠
      (freshState.heap freshState.store.be).committed :=
  ⟨rfl, by decide, by decide⟩

/-! ## Lock discipline -/

/-- C9: started with the transaction lock free, `NewAuthStore`, `AuthEnable`
and `UserAdd` keep the lock discipline: in the calls the backend receives,
every `UnsafeCreateBucket`, `UnsafeRange` and `UnsafePut` comes between the
`Lock` and the `Unlock` of the call and every `ForceCommit` comes after the
`Unlock`; when the call returns (success, user already exists, serialization
failure, or hashing failure, on which the backend receives no call at all) the
lock is free again. -/
theorem lock_discipline (h : Heap) (be : BackendRef) (env : Env) (s : State)
    (r : AuthUserAddRequest) (_hfree : (h be).locked = false)
    (hfree' : s.backend.locked = false) :
    (∃ evs, (NewAuthStore h be).backend.trace = (h be).trace ++ evs ∧
      lockDiscipline false evs = some false ∧
      (NewAuthStore h be).backend.locked = false) ∧
    (∃ evs, (AuthEnable s).1.backend.trace = s.backend.trace ++ evs ∧
      (lockDiscipline false evs).isSome = true ∧
      ((AuthEnable s).2 = Outcome.returned () →
        lockDiscipline false evs = some false ∧ (AuthEnable s).1.backend.locked = false)) ∧
    (∃ evs, (UserAdd env s r).1.backend.trace = s.backend.trace ++ evs ∧
      (lockDiscipline false evs).isSome = true ∧
      (∀ v, (UserAdd env s r).2 = Outcome.returned v →
        lockDiscipline false evs = some false ∧ (UserAdd env s r).1.backend.locked = false) ∧
      (∀ err, env.GenerateFromPassword r.Password DefaultCost = Except.error err →
        evs = [])) := by
  refine ⟨?_, ?_, ?_⟩
  · rw [NewAuthStore_backend]
    exact ⟨_, rfl, rfl, rfl⟩
  · rcases hk : kvGet s.backend.pending authBucketName with _ | bucket
    · rw [AuthEnable_no_bucket s hk, setBackend_backend]
      exact ⟨[Event.lock], rfl, rfl, fun hret => (by cases hret)⟩
    · rw [AuthEnable_of_bucket s bucket hk, setBackend_backend]
      exact ⟨_, rfl, rfl, fun _ => ⟨rfl, rfl⟩⟩
  · rcases hh : env.GenerateFromPassword r.Password DefaultCost with err | hashed
    · rw [UserAdd_hash_error env s r err hh]
      exact ⟨[], by simp, rfl, fun _ _ => ⟨rfl, hfree'⟩, fun _ _ => rfl⟩
    · rcases hb : kvGet s.backend.pending authUsersBucketName with _ | bucket
      · rw [UserAdd_no_bucket env s r hashed hh hb, setBackend_backend]
        exact ⟨[Event.lock], rfl, rfl, fun v hret => (by cases hret),
          fun _ he => (by cases he)⟩
      · rcases hn : kvGet bucket r.Name with _ | v
        · rcases hm : env.Marshal { Name := r.Name, Password := hashed } with merr | m
          · rw [UserAdd_marshal_error env s r hashed bucket merr hh hb hn hm,
              setBackend_backend]
            exact ⟨_, rfl, rfl, fun _ _ => ⟨rfl, rfl⟩, fun _ he => (by cases he)⟩
          · rw [UserAdd_added env s r hashed bucket m hh hb hn hm, setBackend_backend]
            exact ⟨_, rfl, rfl, fun _ _ => ⟨rfl, rfl⟩, fun _ he => (by cases he)⟩
        · rw [UserAdd_exists env s r hashed bucket v hh hb hn, setBackend_backend]
          exact ⟨_, rfl, rfl, fun _ _ => ⟨rfl, rfl⟩, fun _ he => (by cases he)⟩

/-- Witness of C9: the three calls on the empty backend and on a fresh store. -/
theorem lock_discipline_witness :
    (∃ evs, (NewAuthStore emptyHeap 0).backend.trace = (emptyHeap 0).trace ++ evs ∧
      lockDiscipline false evs = some false ∧
      (NewAuthStore emptyHeap 0).backend.locked = false) ∧
    (∃ evs, (AuthEnable freshState).1.backend.trace = freshState.backend.trace ++ evs ∧
      (lockDiscipline false evs).isSome = true ∧
      ((AuthEnable freshState).2 = Outcome.returned () →
        lockDiscipline false evs = some false ∧
        (AuthEnable freshState).1.backend.locked = false)) ∧
    (∃ evs, (UserAdd exampleEnv freshState aliceRequest).1.backend.trace =
        freshState.backend.trace ++ evs ∧
      (lockDiscipline false evs).isSome = true ∧
      (∀ v, (UserAdd exampleEnv freshState aliceRequest).2 = Outcome.returned v →
        lockDiscipline false evs = some false ∧
        (UserAdd exampleEnv freshState aliceRequest).1.backend.locked = false) ∧
      (∀ err, exampleEnv.GenerateFromPassword aliceRequest.Password DefaultCost =
          Except.error err →
        evs = [])) :=
  lock_discipline emptyHeap 0 exampleEnv freshState aliceRequest (by decide) (by decide)

/-! ## What the bucket authUsers holds -/

theorem exampleUnmarshal_exampleMarshal (u : User) :
    exampleUnmarshal (exampleMarshal u) = some u := by
  obtain ⟨name, password⟩ := u
  simp [exampleUnmarshal, exampleMarshal]

theorem AuthEnable_keeps_wellKeyed (unmarshal : Bytes → Option User) (s : State)
    (h1 : usersWellKeyed unmarshal s.backend.pending)
    (h2 : usersWellKeyed unmarshal s.backend.committed) :
    usersWellKeyed unmarshal (AuthEnable s).1.backend.pending ∧
    usersWellKeyed unmarshal (AuthEnable s).1.backend.committed := by
  rcases hk : kvGet s.backend.pending authBucketName with _ | bucket
  · rw [AuthEnable_no_bucket s hk, setBackend_backend]
    exact ⟨h1, h2⟩
  · rw [AuthEnable_of_bucket s bucket hk, setBackend_backend]
    have hp : usersWellKeyed unmarshal
        (kvPut authBucketName (kvPut enableFlagKey [1] bucket) s.backend.pending) := by
      intro users hu
      rw [kvGet_kvPut_ne _ _ _ _ auth_ne_authUsers] at hu
      exact h1 users hu
    exact ⟨hp, hp⟩

theorem UserAdd_keeps_wellKeyed (unmarshal : Bytes → Option User) (env : Env) (s : State)
    (r : AuthUserAddRequest)
    (hcodec : ∀ u m, env.Marshal u = Except.ok m → unmarshal m = some u)
    (h1 : usersWellKeyed unmarshal s.backend.pending)
    (h2 : usersWellKeyed unmarshal s.backend.committed) :
    usersWellKeyed unmarshal (UserAdd env s r).1.backend.pending ∧
    usersWellKeyed unmarshal (UserAdd env s r).1.backend.committed := by
  rcases hh : env.GenerateFromPassword r.Password DefaultCost with err | hashed
  · rw [UserAdd_hash_error env s r err hh]
    exact ⟨h1, h2⟩
  · rcases hb : kvGet s.backend.pending authUsersBucketName with _ | bucket
    · rw [UserAdd_no_bucket env s r hashed hh hb, setBackend_backend]
      exact ⟨h1, h2⟩
    · rcases hn : kvGet bucket r.Name with _ | v
      · rcases hm : env.Marshal { Name := r.Name, Password := hashed } with merr | m
        · rw [UserAdd_marshal_error env s r hashed bucket merr hh hb hn hm,
            setBackend_backend]
          exact ⟨h1, h2⟩
        · rw [UserAdd_added env s r hashed bucket m hh hb hn hm, setBackend_backend]
          refine ⟨?_, h2⟩
          intro users hu k v hkv
          rw [kvGet_kvPut_same] at hu
          cases hu
          rcases mem_kvPut _ _ _ _ hkv with heq | hold
          · cases heq
            exact ⟨_, hcodec _ _ hm, rfl⟩
          · exact h1 bucket hb k v hold
      · rw [UserAdd_exists env s r hashed bucket v hh hb hn, setBackend_backend]
        exact ⟨h1, h2⟩

theorem run_keeps_wellKeyed (unmarshal : Bytes → Option User) (cs : List Call) :
    ∀ s : State, (∀ c ∈ cs, c.isRecover = false ∧ c.marshalsFor unmarshal) →
      usersWellKeyed unmarshal s.backend.pending →
      usersWellKeyed unmarshal s.backend.committed →
      usersWellKeyed unmarshal (run cs s).backend.pending ∧
      usersWellKeyed unmarshal (run cs s).backend.committed := by
  induction cs with
  | nil => intro s _ h1 h2; exact ⟨h1, h2⟩
  | cons c cs ih =>
    intro s hcs h1 h2
    have hc := hcs c (List.mem_cons_self _ _)
    have hstep : usersWellKeyed unmarshal (step s c).1.backend.pending ∧
        usersWellKeyed unmarshal (step s c).1.backend.committed := by
      cases c with
      | authEnable => exact AuthEnable_keeps_wellKeyed unmarshal s h1 h2
      | recover be => cases hc.1
      | userAdd env r => exact UserAdd_keeps_wellKeyed unmarshal env s r hc.2 h1 h2
    by_cases hab : (step s c).2 = true
    · have hrun : run (c :: cs) s = (step s c).1 := by simp [run, hab]
      rw [hrun]
      exact hstep
    · have hrun : run (c :: cs) s = run cs (step s c).1 := by simp [run, hab]
      rw [hrun]
      exact ih _ (fun c' hc' => hcs c' (List.mem_cons_of_mem _ hc')) hstep.1 hstep.2

/-- C10: when `UserAdd` returns success, the value stored in bucket
"authUsers" under the name of the request is exactly the serialization of the
user record whose name is that name and whose password is the output of the
hashing of the plaintext at the default cost (so it decodes to that record, not
to one holding the plaintext).  Hence, starting from `NewAuthStore` on an empty
backend, after any sequence of `UserAdd` and `AuthEnable` calls every entry of
authUsers, pending or durable, decodes to a user whose name is the key of the
entry. -/
theorem UserAdd_stores_marshaled_user (unmarshal : Bytes → Option User) (env : Env)
    (s : State) (r : AuthUserAddRequest) (h : Heap) (be : BackendRef) (cs : List Call)
    (hempty : h be = emptyBackend)
    (hcodec : ∀ u m, env.Marshal u = Except.ok m → unmarshal m = some u)
    (hcs : ∀ c ∈ cs, c.isRecover = false ∧ c.marshalsFor unmarshal) :
    (∀ resp, (UserAdd env s r).2 = Outcome.returned (resp, none) →
      ∃ hashed marshaledUser,
        env.GenerateFromPassword r.Password DefaultCost = Except.ok hashed ∧
        env.Marshal { Name := r.Name, Password := hashed } = Except.ok marshaledUser ∧
        Backend.lookup (UserAdd env s r).1.backend.pending authUsersBucketName r.Name =
          some marshaledUser ∧
        unmarshal marshaledUser = some { Name := r.Name, Password := hashed }) ∧
    usersWellKeyed unmarshal (run cs (NewAuthStore h be)).backend.pending ∧
    usersWellKeyed unmarshal (run cs (NewAuthStore h be)).backend.committed := by
  constructor
  · intro resp hret
    rcases hh : env.GenerateFromPassword r.Password DefaultCost with err | hashed
    · rw [UserAdd_hash_error env s r err hh] at hret
      cases hret
    · rcases hb : kvGet s.backend.pending authUsersBucketName with _ | bucket
      · rw [UserAdd_no_bucket env s r hashed hh hb] at hret
        cases hret
      · rcases hn : kvGet bucket r.Name with _ | v
        · rcases hm : env.Marshal { Name := r.Name, Password := hashed } with merr | m
          · rw [UserAdd_marshal_error env s r hashed bucket merr hh hb hn hm] at hret
            cases hret
          · rw [UserAdd_added env s r hashed bucket m hh hb hn hm]
            refine ⟨hashed, m, rfl, hm, ?_, hcodec _ _ hm⟩
            simp [setBackend_backend, Backend.lookup, kvGet_kvPut_same]
        · rw [UserAdd_exists env s r hashed bucket v hh hb hn] at hret
          cases hret
  · have hinit : (NewAuthStore h be).backend.pending =
        [(authBucketName, []), (authUsersBucketName, [])] := by
      rw [NewAuthStore_backend, hempty]
      decide
    have hinit' : (NewAuthStore h be).backend.committed =
        [(authBucketName, []), (authUsersBucketName, [])] := by
      rw [NewAuthStore_backend, hempty]
      decide
    have h0 : usersWellKeyed unmarshal [(authBucketName, []), (authUsersBucketName, [])] := by
      intro users hu k v hkv
      have : users = [] := by
        have h' : kvGet [(authBucketName, ([] : Bucket)), (authUsersBucketName, [])]
            authUsersBucketName = some [] := by decide
        rw [h'] at hu
        cases hu
        rfl
      rw [this] at hkv
      cases hkv
    exact run_keeps_wellKeyed unmarshal cs _ hcs (by rw [hinit]; exact h0)
      (by rw [hinit']; exact h0)

/-- Witness of C10: "alice" is added to a fresh store, authentication is
enabled, and "alice" is asked for again. -/
theorem UserAdd_stores_marshaled_user_witness :
    (∀ resp, (UserAdd exampleEnv freshState aliceRequest).2 = Outcome.returned (resp, none) →
      ∃ hashed marshaledUser,
        exampleEnv.GenerateFromPassword aliceRequest.Password DefaultCost =
          Except.ok hashed ∧
        exampleEnv.Marshal { Name := aliceRequest.Name, Password := hashed } =
          Except.ok marshaledUser ∧
        Backend.lookup (UserAdd exampleEnv freshState aliceRequest).1.backend.pending
          authUsersBucketName aliceRequest.Name = some marshaledUser ∧
        exampleUnmarshal marshaledUser =
          some { Name := aliceRequest.Name, Password := hashed }) ∧
    usersWellKeyed exampleUnmarshal
      (run [Call.userAdd exampleEnv aliceRequest, Call.authEnable,
          Call.userAdd exampleEnv aliceOther] (NewAuthStore emptyHeap 0)).backend.pending ∧
    usersWellKeyed exampleUnmarshal
      (run [Call.userAdd exampleEnv aliceRequest, Call.authEnable,
          Call.userAdd exampleEnv aliceOther] (NewAuthStore emptyHeap 0)).backend.committed :=
  UserAdd_stores_marshaled_user exampleUnmarshal exampleEnv freshState aliceRequest emptyHeap 0
    [Call.userAdd exampleEnv aliceRequest, Call.authEnable, Call.userAdd exampleEnv aliceOther]
    rfl
    (fun u m hm => by
      cases hm
      exact exampleUnmarshal_exampleMarshal u)
    (fun c hc => by
      simp only [List.mem_cons, List.mem_singleton, List.not_mem_nil, or_false] at hc
      rcases hc with rfl | rfl | rfl
      · exact ⟨rfl, fun u m hm => by cases hm; exact exampleUnmarshal_exampleMarshal u⟩
      · exact ⟨rfl, trivial⟩
      · exact ⟨rfl, fun u m hm => by cases hm; exact exampleUnmarshal_exampleMarshal u⟩)

end Auth
